import Mathlib

/-!
Shallow embedding of the feddit-sentiment-microsite comment pipeline
(`app/feddit_client.py`, `app/sentiment.py`, `app/main.py`).

Python dictionaries produced by `analyze_sentiment` are modelled by a record
whose possibly-missing keys are `Option`-valued; reading a missing key is a
`KeyError`.  Machine floats from the external VADER scorer are modelled by an
opaque scoring function `score : String → Rat` passed as a parameter (the spec
treats the scorer as an opaque pure function).  HTTP transport failures of the
comment-page endpoint are modelled by a predicate `failAt : Nat → Bool` on the
`skip` offset of the request; the remote paginated source is a list, a page at
offset `skip` being `(src.drop skip).take pageSize`.  The page size constant
`PAGE_SIZE` lives in `app/config.py`, which is not part of the sources; it is
therefore an explicit parameter `pageSize`.
-/

/-- A comment as delivered by the remote source (`RawComment`). -/
structure RawComment where
  id : Nat
  text : String
  created_at : Int
deriving DecidableEq, Repr

/-- A comment after sentiment enrichment (`EnrichedComment`). -/
structure EnrichedComment where
  id : Nat
  text : String
  polarity : Rat
  classification : String
deriving DecidableEq, Repr

/-- The dictionary returned by `analyze_sentiment`: `polarity` is always
present; `classification` and `sentiment` are present only on some branches. -/
structure AnalyzeResult where
  polarity : Rat
  classification : Option String
  sentiment : Option String
deriving DecidableEq, Repr

/-- Python exceptions that can escape the modelled functions. -/
inductive PyError where
  | valueError (msg : String)
  | keyError (key : String)
  | httpError
deriving DecidableEq, Repr

deriving instance DecidableEq for Except

/-- One entry of the remote forum directory (a "subfeddit"). -/
structure SubfedditInfo where
  id : Nat
  title : String
deriving DecidableEq, Repr

/-- The remote Feddit service as seen by the client code: the forum list,
the comments of each forum id, and which page requests fail. -/
structure FedditEnv where
  subfeddits : List SubfedditInfo
  commentsOf : Nat → List RawComment
  failAt : Nat → Bool
  subfedditsFail : Bool

/-- ASCII case folding of a character, as Python's `str.lower` acts on
ASCII letters. -/
def pyCharLower (c : Char) : Char :=
  if c = 'A' then 'a' else if c = 'B' then 'b' else if c = 'C' then 'c' else
  if c = 'D' then 'd' else if c = 'E' then 'e' else if c = 'F' then 'f' else
  if c = 'G' then 'g' else if c = 'H' then 'h' else if c = 'I' then 'i' else
  if c = 'J' then 'j' else if c = 'K' then 'k' else if c = 'L' then 'l' else
  if c = 'M' then 'm' else if c = 'N' then 'n' else if c = 'O' then 'o' else
  if c = 'P' then 'p' else if c = 'Q' then 'q' else if c = 'R' then 'r' else
  if c = 'S' then 's' else if c = 'T' then 't' else if c = 'U' then 'u' else
  if c = 'V' then 'v' else if c = 'W' then 'w' else if c = 'X' then 'x' else
  if c = 'Y' then 'y' else if c = 'Z' then 'z' else c

/-- ASCII upper-casing of a character, as Python's `str.upper` acts on
ASCII letters. -/
def pyCharUpper (c : Char) : Char :=
  if c = 'a' then 'A' else if c = 'b' then 'B' else if c = 'c' then 'C' else
  if c = 'd' then 'D' else if c = 'e' then 'E' else if c = 'f' then 'F' else
  if c = 'g' then 'G' else if c = 'h' then 'H' else if c = 'i' then 'I' else
  if c = 'j' then 'J' else if c = 'k' then 'K' else if c = 'l' then 'L' else
  if c = 'm' then 'M' else if c = 'n' then 'N' else if c = 'o' then 'O' else
  if c = 'p' then 'P' else if c = 'q' then 'Q' else if c = 'r' then 'R' else
  if c = 's' then 'S' else if c = 't' then 'T' else if c = 'u' then 'U' else
  if c = 'v' then 'V' else if c = 'w' then 'W' else if c = 'x' then 'X' else
  if c = 'y' then 'Y' else if c = 'z' then 'Z' else c

/-- Model of `str.lower` (ASCII fragment). -/
def pyLower (s : String) : String :=
  String.mk (s.data.map pyCharLower)

/-- Model of `str.upper` (ASCII fragment). -/
def pyUpper (s : String) : String :=
  String.mk (s.data.map pyCharUpper)

/-- Python truthiness of an optional integer: `None` and `0` are falsy. -/
def pyTruthyInt : Option Int → Bool
  | none => false
  | some v => v != 0

/-- Model of `classify_sentiment` (`app/sentiment.py`): positive iff the
compound score is strictly positive. -/
def classify_sentiment (compound : Rat) : String :=
  if compound > 0 then "positive" else "negative"

/-- Python's `not text or not text.strip()`: the string is empty or consists
of whitespace only (stripping leaves nothing). -/
def pyIsBlank (text : String) : Bool :=
  text.data.all Char.isWhitespace

/-- Model of `analyze_sentiment` (`app/sentiment.py`).  On blank text the
returned dictionary carries the label under the key `sentiment` and has NO
`classification` key; otherwise it has `polarity` and `classification`. -/
def analyze_sentiment (score : String → Rat) (text : String) : AnalyzeResult :=
  if pyIsBlank text then
    { polarity := 0, classification := none, sentiment := some "negative" }
  else
    let compound := score text
    { polarity := compound, classification := some (classify_sentiment compound),
      sentiment := none }

/-- Model of `is_within_time_range` (`app/feddit_client.py` lines 122–141).
The Python code guards each bound with its truthiness (`if start and ...`),
so a bound equal to `0` is skipped like an absent one. -/
def is_within_time_range (comment : RawComment) (start endTs : Option Int) : Bool :=
  if pyTruthyInt start && decide (comment.created_at < start.getD 0) then false
  else if pyTruthyInt endTs && decide (comment.created_at > endTs.getD 0) then false
  else true

/-- The range predicate exactly as the spec words it (`is_within_range`):
true iff (`start` absent OR `created_at ≥ start`) AND (`end` absent OR
`created_at ≤ end`), a present zero bound being a real bound. -/
def spec_is_within_range (comment : RawComment) (start endTs : Option Int) : Bool :=
  (match start with
   | none => true
   | some v => decide (v ≤ comment.created_at)) &&
  (match endTs with
   | none => true
   | some v => decide (comment.created_at ≤ v))

/-- Model of `enrich_with_sentiment` (`app/feddit_client.py` lines 144–160):
reads `sentiment["classification"]`, a `KeyError` when the key is missing. -/
def enrich_with_sentiment (score : String → Rat) (comment : RawComment) :
    Except PyError EnrichedComment :=
  let sentiment := analyze_sentiment score comment.text
  match sentiment.classification with
  | some cl =>
      .ok { id := comment.id, text := comment.text,
            polarity := sentiment.polarity, classification := cl }
  | none => .error (.keyError "classification")

/-- The enriched comment produced for a non-blank text (the value
`enrich_with_sentiment` returns when it succeeds). -/
def mkEnriched (score : String → Rat) (comment : RawComment) : EnrichedComment :=
  { id := comment.id, text := comment.text,
    polarity := (analyze_sentiment score comment.text).polarity,
    classification := classify_sentiment (score comment.text) }

/-- The inner `for comment in comments` loop of `get_comments`
(lines 98–104): filter, enrich, append; break once `limit` is reached. -/
def processPage (score : String → Rat) (start endTs : Option Int) (limit : Nat) :
    List RawComment → List EnrichedComment → Except PyError (List EnrichedComment)
  | [], acc => .ok acc
  | c :: rest, acc =>
    match
      (if is_within_time_range c start endTs then
        match enrich_with_sentiment score c with
        | .error err => .error err
        | .ok e => .ok (acc ++ [e])
      else .ok acc : Except PyError (List EnrichedComment)) with
    | .error err => .error err
    | .ok acc' =>
      if limit ≤ acc'.length then .ok acc'
      else processPage score start endTs limit rest acc'

/-- The pagination loop of `get_comments` (lines 80–106).  Besides the
collected comments it returns the list of `skip` offsets at which a page
was requested (ghost output used to reason about how far pagination went).
The loop recurses only after consuming a nonempty page, which forces
`skip < src.length` and `skip` to grow strictly, so the `fuel` parameter
with which `get_comments` starts it (`src.length + 1`) is never exhausted;
`getCommentsLoop_fuel_irrel` below proves the fuel bound sufficient. -/
def getCommentsLoop (score : String → Rat) (failAt : Nat → Bool) (fuel : Nat)
    (pageSize limit : Nat) (start endTs : Option Int) (src : List RawComment)
    (skip : Nat) (acc : List EnrichedComment) (skips : List Nat) :
    Except PyError (List EnrichedComment × List Nat) :=
  match fuel with
  | 0 => .ok (acc, skips)
  | fuel + 1 =>
    if acc.length < limit then
      if failAt skip then .ok (acc, skips ++ [skip])
      else
        let page := (src.drop skip).take pageSize
        if page = [] then .ok (acc, skips ++ [skip])
        else
          match processPage score start endTs limit page acc with
          | .error err => .error err
          | .ok acc' =>
            getCommentsLoop score failAt fuel pageSize limit start endTs src
              (skip + pageSize) acc' (skips ++ [skip])
    else .ok (acc, skips)

/-- Model of `get_subfeddit_id_by_name` (lines 11–44): list the forums,
return the id of the first whose lower-cased title equals the lower-cased
name, else a `ValueError`; a transport failure of the forum listing
propagates. -/
def get_subfeddit_id_by_name (env : FedditEnv) (name : String) :
    Except PyError Nat :=
  if env.subfedditsFail then .error .httpError
  else
    match env.subfeddits.find? (fun sub => pyLower sub.title == pyLower name) with
    | some sub => .ok sub.id
    | none => .error (.valueError ("Subfeddit '" ++ name ++ "' not found"))

/-- The second sentiment pass over one collected comment
(lines 111–114): recompute the sentiment of its text and overwrite
`polarity` and `classification`; `KeyError` when the latter key is missing. -/
def reanalyze (score : String → Rat) (c : EnrichedComment) :
    Except PyError EnrichedComment :=
  let sentiment := analyze_sentiment score c.text
  match sentiment.classification with
  | some cl => .ok { c with polarity := sentiment.polarity, classification := cl }
  | none => .error (.keyError "classification")

/-- The `for c in collected_comments` second pass (lines 111–114). -/
def secondPass (score : String → Rat) :
    List EnrichedComment → Except PyError (List EnrichedComment)
  | [] => .ok []
  | c :: rest =>
    match reanalyze score c with
    | .error err => .error err
    | .ok c' =>
      match secondPass score rest with
      | .error err => .error err
      | .ok rest' => .ok (c' :: rest')

/-- The `ValueError` message of a zero-collection outcome (line 109). -/
def noMatchMsg : String := "No comments found matching the given criteria"

/-- Model of `get_comments` (lines 47–119): resolve the forum, run the
pagination loop, fail with a `ValueError` when nothing was collected,
otherwise run the second sentiment pass and return the collected comments. -/
def get_comments (score : String → Rat) (env : FedditEnv) (pageSize : Nat)
    (subfeddit : String) (limit : Nat) (start endTs : Option Int) :
    Except PyError (List EnrichedComment) :=
  match get_subfeddit_id_by_name env subfeddit with
  | .error err => .error err
  | .ok sid =>
    match getCommentsLoop score env.failAt ((env.commentsOf sid).length + 1)
        pageSize limit start endTs (env.commentsOf sid) 0 [] [] with
    | .error err => .error err
    | .ok (collected, _) =>
      if collected = [] then .error (.valueError noMatchMsg)
      else secondPass score collected

/-- The optional `sort_by_polarity_score` query parameter. -/
inductive SortOrder where
  | asc
  | desc
deriving DecidableEq, Repr

/-- The outcome of the HTTP handler: a JSON body or an `HTTPException`. -/
inductive HandlerResult where
  | success (body : List EnrichedComment)
  | httpException (status : Nat) (detail : String)
deriving DecidableEq, Repr

/-- The optional polarity sort of the handler (`app/main.py` lines 72–83);
Python's `list.sort` is a stable sort, `reverse=True` keeping the original
order of equal keys. -/
def sortComments (sortParam : Option SortOrder) (data : List EnrichedComment) :
    List EnrichedComment :=
  match sortParam with
  | some .asc => data.mergeSort (fun a b => decide (a.polarity ≤ b.polarity))
  | some .desc => data.mergeSort (fun a b => decide (b.polarity ≤ a.polarity))
  | none => data

/-- Python `str(e)` of the modelled exceptions as the handler forwards it. -/
def errDetail : PyError → String
  | .valueError msg => msg
  | .keyError key => "'" ++ key ++ "'"
  | .httpError => "HTTP error"

/-- The `comments` endpoint handler (`app/main.py` lines 17–90):
call `get_comments`, optionally sort by polarity, map a `ValueError`
to a 404 and any other exception to a 500. -/
def comments (score : String → Rat) (env : FedditEnv) (pageSize : Nat)
    (subfeddit : String) (limit : Nat) (start endTs : Option Int)
    (sortParam : Option SortOrder) : HandlerResult :=
  match get_comments score env pageSize subfeddit limit start endTs with
  | .ok data => .success (sortComments sortParam data)
  | .error (.valueError msg) => .httpException 404 msg
  | .error err => .httpException 500 (errDetail err)

/-- The 52 basic latin letters, the only characters the ASCII case maps
move. -/
def asciiLetters : List Char :=
  ['a', 'b', 'c', 'd', 'e', 'f', 'g', 'h', 'i', 'j', 'k', 'l', 'm',
   'n', 'o', 'p', 'q', 'r', 's', 't', 'u', 'v', 'w', 'x', 'y', 'z',
   'A', 'B', 'C', 'D', 'E', 'F', 'G', 'H', 'I', 'J', 'K', 'L', 'M',
   'N', 'O', 'P', 'Q', 'R', 'S', 'T', 'U', 'V', 'W', 'X', 'Y', 'Z']

/-- The comment source used by several concrete witnesses: one forum
"Cats" with three short comments. -/
def envCats : FedditEnv :=
  { subfeddits := [⟨1, "Cats"⟩],
    commentsOf := fun i =>
      if i = 1 then [⟨1, "a", 10⟩, ⟨2, "b", 20⟩, ⟨3, "c", 30⟩] else [],
    failAt := fun _ => false,
    subfedditsFail := false }

/-- A concrete forum directory for the C6 witness. -/
def envDir : FedditEnv :=
  { subfeddits := [⟨3, "Dummy Topic 1"⟩, ⟨55, "Cats"⟩],
    commentsOf := fun _ => [],
    failAt := fun _ => false,
    subfedditsFail := false }

/-- A source whose page requests fail at every nonzero skip (first page
succeeds, second fails): five comments, page size 3 used in the witness. -/
def envMid : FedditEnv :=
  { subfeddits := [⟨1, "Cats"⟩],
    commentsOf := fun _ =>
      [⟨1, "a", 10⟩, ⟨2, "b", 20⟩, ⟨3, "c", 30⟩, ⟨4, "d", 40⟩, ⟨5, "e", 50⟩],
    failAt := fun k => decide (k ≠ 0),
    subfedditsFail := false }

/-- A source whose every comment-page request fails (outage). -/
def envOut : FedditEnv :=
  { subfeddits := [⟨1, "Cats"⟩],
    commentsOf := fun i =>
      if i = 1 then [⟨1, "a", 10⟩, ⟨2, "b", 20⟩, ⟨3, "c", 30⟩] else [],
    failAt := fun _ => true,
    subfedditsFail := false }

/-- A source whose single comment has blank (whitespace-only) text. -/
def envBlank : FedditEnv :=
  { subfeddits := [⟨1, "Cats"⟩],
    commentsOf := fun _ => [⟨1, "  ", 10⟩],
    failAt := fun _ => false,
    subfedditsFail := false }

/-- A 40-comment all-in-range source whose first comment has blank text. -/
def envForty : FedditEnv :=
  { subfeddits := [⟨1, "Cats"⟩],
    commentsOf := fun _ =>
      ⟨0, " ", 0⟩ :: (List.range 39).map (fun i => ⟨i + 1, "t", 0⟩),
    failAt := fun _ => false,
    subfedditsFail := false }

/-- A 40-comment all-in-range source with non-blank texts. -/
def envForty2 : FedditEnv :=
  { subfeddits := [⟨1, "Cats"⟩],
    commentsOf := fun _ => (List.range 40).map (fun i => ⟨i, "t", 0⟩),
    failAt := fun _ => false,
    subfedditsFail := false }

/-! ### Helper lemmas -/

theorem pyCharUpper_of_not_letter (c : Char) (hc : c ∉ asciiLetters) :
    pyCharUpper c = c := by
  simp only [asciiLetters, List.mem_cons, List.not_mem_nil, or_false, not_or] at hc
  obtain ⟨h1, h2, h3, h4, h5, h6, h7, h8, h9, h10, h11, h12, h13, h14, h15, h16,
    h17, h18, h19, h20, h21, h22, h23, h24, h25, h26, h27, h28, h29, h30, h31,
    h32, h33, h34, h35, h36, h37, h38, h39, h40, h41, h42, h43, h44, h45, h46,
    h47, h48, h49, h50, h51, h52⟩ := hc
  simp only [pyCharUpper, if_neg h1, if_neg h2, if_neg h3, if_neg h4, if_neg h5,
    if_neg h6, if_neg h7, if_neg h8, if_neg h9, if_neg h10, if_neg h11,
    if_neg h12, if_neg h13, if_neg h14, if_neg h15, if_neg h16, if_neg h17,
    if_neg h18, if_neg h19, if_neg h20, if_neg h21, if_neg h22, if_neg h23,
    if_neg h24, if_neg h25, if_neg h26]

theorem pyCharLower_of_not_letter (c : Char) (hc : c ∉ asciiLetters) :
    pyCharLower c = c := by
  simp only [asciiLetters, List.mem_cons, List.not_mem_nil, or_false, not_or] at hc
  obtain ⟨h1, h2, h3, h4, h5, h6, h7, h8, h9, h10, h11, h12, h13, h14, h15, h16,
    h17, h18, h19, h20, h21, h22, h23, h24, h25, h26, h27, h28, h29, h30, h31,
    h32, h33, h34, h35, h36, h37, h38, h39, h40, h41, h42, h43, h44, h45, h46,
    h47, h48, h49, h50, h51, h52⟩ := hc
  simp only [pyCharLower, if_neg h27, if_neg h28, if_neg h29, if_neg h30,
    if_neg h31, if_neg h32, if_neg h33, if_neg h34, if_neg h35, if_neg h36,
    if_neg h37, if_neg h38, if_neg h39, if_neg h40, if_neg h41, if_neg h42,
    if_neg h43, if_neg h44, if_neg h45, if_neg h46, if_neg h47, if_neg h48,
    if_neg h49, if_neg h50, if_neg h51, if_neg h52]

theorem pyCharLower_pyCharUpper (c : Char) :
    pyCharLower (pyCharUpper c) = pyCharLower c := by
  by_cases hc : c ∈ asciiLetters
  · fin_cases hc <;> decide
  · rw [pyCharUpper_of_not_letter c hc]

theorem pyCharLower_idem (c : Char) :
    pyCharLower (pyCharLower c) = pyCharLower c := by
  by_cases hc : c ∈ asciiLetters
  · fin_cases hc <;> decide
  · rw [pyCharLower_of_not_letter c hc, pyCharLower_of_not_letter c hc]

theorem pyLower_pyUpper (s : String) : pyLower (pyUpper s) = pyLower s := by
  unfold pyLower pyUpper
  rw [List.map_map,
    show pyCharLower ∘ pyCharUpper = pyCharLower from
      funext fun c => pyCharLower_pyCharUpper c]

theorem pyLower_idem (s : String) : pyLower (pyLower s) = pyLower s := by
  unfold pyLower
  rw [List.map_map,
    show pyCharLower ∘ pyCharLower = pyCharLower from
      funext fun c => pyCharLower_idem c]

theorem processPage_length_le (score : String → Rat) (start endTs : Option Int)
    (limit : Nat) (l : List RawComment) :
    ∀ (acc acc' : List EnrichedComment), acc.length < limit →
      processPage score start endTs limit l acc = .ok acc' →
      acc'.length ≤ limit := by
  induction l with
  | nil =>
    intro acc acc' hlt heq
    simp only [processPage] at heq
    cases heq
    omega
  | cons c rest ih =>
    intro acc acc' hlt heq
    simp only [processPage] at heq
    split at heq
    · exact absurd heq (by simp)
    · rename_i acc₁ hstep
      split at heq
      · cases heq
        rename_i hbreak
        split at hstep
        · split at hstep
          · exact absurd hstep (by simp)
          · cases hstep
            simp_all
            omega
        · cases hstep
          omega
      · exact ih acc₁ acc' (by omega) heq

theorem getCommentsLoop_length_le (score : String → Rat) (failAt : Nat → Bool)
    (pageSize limit : Nat) (start endTs : Option Int) (src : List RawComment) :
    ∀ (fuel skip : Nat) (acc : List EnrichedComment) (skips : List Nat)
      (res : List EnrichedComment) (tr : List Nat), acc.length ≤ limit →
      getCommentsLoop score failAt fuel pageSize limit start endTs src skip acc skips
        = .ok (res, tr) →
      res.length ≤ limit := by
  intro fuel
  induction fuel with
  | zero =>
    intro skip acc skips res tr hle heq
    simp only [getCommentsLoop] at heq
    cases heq
    exact hle
  | succ fuel ih =>
    intro skip acc skips res tr hle heq
    by_cases hlt : acc.length < limit
    · simp only [getCommentsLoop, if_pos hlt] at heq
      split at heq
      · cases heq; exact hle
      · split at heq
        · cases heq; exact hle
        · split at heq
          · exact absurd heq (by simp)
          · rename_i acc₁ hstep
            exact ih _ _ _ _ _
              (processPage_length_le score start endTs limit _ _ _ hlt hstep) heq
    · simp only [getCommentsLoop, if_neg hlt] at heq
      cases heq
      exact hle

theorem secondPass_length (score : String → Rat) :
    ∀ (l l' : List EnrichedComment), secondPass score l = .ok l' →
      l'.length = l.length := by
  intro l
  induction l with
  | nil =>
    intro l' heq
    cases heq
    rfl
  | cons c rest ih =>
    intro l' heq
    simp only [secondPass] at heq
    split at heq
    · exact absurd heq (by simp)
    · split at heq
      · exact absurd heq (by simp)
      · rename_i c' hc rest' hrest
        cases heq
        simp [ih rest' hrest]

theorem enrich_error_shape (score : String → Rat) (c : RawComment) (err : PyError)
    (heq : enrich_with_sentiment score c = .error err) :
    err = .keyError "classification" := by
  simp only [enrich_with_sentiment] at heq
  split at heq
  · exact absurd heq (by simp)
  · cases heq
    rfl

theorem enrich_ok_reanalyze (score : String → Rat) (c : RawComment)
    (e : EnrichedComment) (heq : enrich_with_sentiment score c = .ok e) :
    reanalyze score e = .ok e := by
  simp only [enrich_with_sentiment] at heq
  split at heq
  · rename_i cl hcl
    cases heq
    simp [reanalyze, hcl]
  · exact absurd heq (by simp)

theorem processPage_good (score : String → Rat) (start endTs : Option Int)
    (limit : Nat) (l : List RawComment) :
    ∀ (acc acc' : List EnrichedComment),
      (∀ x ∈ acc, reanalyze score x = .ok x) →
      processPage score start endTs limit l acc = .ok acc' →
      ∀ x ∈ acc', reanalyze score x = .ok x := by
  induction l with
  | nil =>
    intro acc acc' hacc heq
    cases heq
    exact hacc
  | cons c rest ih =>
    intro acc acc' hacc heq
    simp only [processPage] at heq
    split at heq
    · exact absurd heq (by simp)
    · rename_i acc₁ hstep
      have hacc₁ : ∀ x ∈ acc₁, reanalyze score x = .ok x := by
        split at hstep
        · split at hstep
          · exact absurd hstep (by simp)
          · rename_i e he
            cases hstep
            intro x hx
            rcases List.mem_append.mp hx with hx | hx
            · exact hacc x hx
            · cases List.mem_singleton.mp hx
              exact enrich_ok_reanalyze score c e he
        · cases hstep
          exact hacc
      split at heq
      · cases heq
        exact hacc₁
      · exact ih acc₁ acc' hacc₁ heq

theorem processPage_error_shape (score : String → Rat) (start endTs : Option Int)
    (limit : Nat) (l : List RawComment) :
    ∀ (acc : List EnrichedComment) (err : PyError),
      processPage score start endTs limit l acc = .error err →
      err = .keyError "classification" := by
  induction l with
  | nil =>
    intro acc err heq
    exact absurd heq (by simp [processPage])
  | cons c rest ih =>
    intro acc err heq
    simp only [processPage] at heq
    split at heq
    · rename_i err₁ hstep
      cases heq
      split at hstep
      · split at hstep
        · cases hstep
          exact enrich_error_shape score c _ (by assumption)
        · exact absurd hstep (by simp)
      · exact absurd hstep (by simp)
    · rename_i acc₁ hstep
      split at heq
      · exact absurd heq (by simp)
      · exact ih acc₁ err heq

theorem getCommentsLoop_good (score : String → Rat) (failAt : Nat → Bool)
    (pageSize limit : Nat) (start endTs : Option Int) (src : List RawComment) :
    ∀ (fuel skip : Nat) (acc : List EnrichedComment) (skips : List Nat)
      (res : List EnrichedComment) (tr : List Nat),
      (∀ x ∈ acc, reanalyze score x = .ok x) →
      getCommentsLoop score failAt fuel pageSize limit start endTs src skip acc skips
        = .ok (res, tr) →
      ∀ x ∈ res, reanalyze score x = .ok x := by
  intro fuel
  induction fuel with
  | zero =>
    intro skip acc skips res tr hacc heq
    cases heq
    exact hacc
  | succ fuel ih =>
    intro skip acc skips res tr hacc heq
    by_cases hlt : acc.length < limit
    · simp only [getCommentsLoop, if_pos hlt] at heq
      split at heq
      · cases heq; exact hacc
      · split at heq
        · cases heq; exact hacc
        · split at heq
          · exact absurd heq (by simp)
          · rename_i acc₁ hstep
            exact ih _ acc₁ _ _ _
              (processPage_good score start endTs limit _ _ _ hacc hstep) heq
    · simp only [getCommentsLoop, if_neg hlt] at heq
      cases heq
      exact hacc

theorem getCommentsLoop_error_shape (score : String → Rat) (failAt : Nat → Bool)
    (pageSize limit : Nat) (start endTs : Option Int) (src : List RawComment) :
    ∀ (fuel skip : Nat) (acc : List EnrichedComment) (skips : List Nat)
      (err : PyError),
      getCommentsLoop score failAt fuel pageSize limit start endTs src skip acc skips
        = .error err →
      err = .keyError "classification" := by
  intro fuel
  induction fuel with
  | zero =>
    intro skip acc skips err heq
    exact absurd heq (by simp [getCommentsLoop])
  | succ fuel ih =>
    intro skip acc skips err heq
    by_cases hlt : acc.length < limit
    · simp only [getCommentsLoop, if_pos hlt] at heq
      split at heq
      · exact absurd heq (by simp)
      · split at heq
        · exact absurd heq (by simp)
        · split at heq
          · rename_i err₁ hstep
            cases heq
            exact processPage_error_shape score start endTs limit _ _ _ hstep
          · exact ih _ _ _ _ heq
    · simp only [getCommentsLoop, if_neg hlt] at heq
      exact absurd heq (by simp)

theorem secondPass_good (score : String → Rat) :
    ∀ (l : List EnrichedComment), (∀ x ∈ l, reanalyze score x = .ok x) →
      secondPass score l = .ok l := by
  intro l
  induction l with
  | nil => intro _; rfl
  | cons c rest ih =>
    intro h
    simp only [secondPass, h c (by simp), ih fun x hx => h x (by simp [hx])]

theorem processPage_none_inRange (score : String → Rat) (start endTs : Option Int)
    (limit : Nat) (l : List RawComment)
    (hnone : ∀ c ∈ l, is_within_time_range c start endTs = false) :
    ∀ (acc : List EnrichedComment),
      processPage score start endTs limit l acc = .ok acc := by
  induction l with
  | nil => intro acc; rfl
  | cons c rest ih =>
    intro acc
    have hc : is_within_time_range c start endTs = false := hnone c (by simp)
    simp only [processPage, hc, Bool.false_eq_true, if_false]
    split
    · rfl
    · exact ih (fun x hx => hnone x (by simp [hx])) acc

theorem getCommentsLoop_none_inRange (score : String → Rat) (failAt : Nat → Bool)
    (pageSize limit : Nat) (start endTs : Option Int) (src : List RawComment)
    (hnone : ∀ c ∈ src, is_within_time_range c start endTs = false) :
    ∀ (fuel skip : Nat) (acc : List EnrichedComment) (skips : List Nat),
      ∃ tr, getCommentsLoop score failAt fuel pageSize limit start endTs src
        skip acc skips = .ok (acc, tr) := by
  intro fuel
  induction fuel with
  | zero =>
    intro skip acc skips
    exact ⟨skips, rfl⟩
  | succ fuel ih =>
    intro skip acc skips
    by_cases hlt : acc.length < limit
    · simp only [getCommentsLoop, if_pos hlt]
      split
      · exact ⟨skips ++ [skip], rfl⟩
      · split
        · exact ⟨skips ++ [skip], rfl⟩
        · have hpage : processPage score start endTs limit
              ((src.drop skip).take pageSize) acc = .ok acc :=
            processPage_none_inRange score start endTs limit _
              (fun c hc => hnone c (List.drop_subset skip src (List.take_subset _ _ hc)))
              acc
          rw [hpage]
          exact ih (skip + pageSize) acc (skips ++ [skip])
    · simp only [getCommentsLoop, if_neg hlt]
      exact ⟨skips, rfl⟩

theorem processPage_ok_nil (score : String → Rat) (start endTs : Option Int)
    (limit : Nat) (hlim : 1 ≤ limit) (l : List RawComment) :
    ∀ (acc : List EnrichedComment),
      processPage score start endTs limit l acc = .ok [] →
      acc = [] ∧ ∀ c ∈ l, is_within_time_range c start endTs = false := by
  induction l with
  | nil =>
    intro acc heq
    cases heq
    exact ⟨rfl, by simp⟩
  | cons c rest ih =>
    intro acc heq
    simp only [processPage] at heq
    split at heq
    · exact absurd heq (by simp)
    · rename_i acc₁ hstep
      by_cases hr : is_within_time_range c start endTs
      · rw [if_pos hr] at hstep
        exfalso
        split at hstep
        · exact absurd hstep (by simp)
        · cases hstep
          split at heq
          · simp at heq
          · rcases ih _ heq with ⟨h₁, _⟩
            simp at h₁
      · rw [if_neg hr] at hstep
        cases hstep
        split at heq
        · rename_i hbreak
          cases heq
          exfalso
          simp at hbreak
          omega
        · rcases ih acc heq with ⟨h₁, h₂⟩
          refine ⟨h₁, ?_⟩
          intro x hx
          rcases List.mem_cons.mp hx with hx | hx
          · rw [hx]
            exact Bool.eq_false_iff.mpr hr
          · exact h₂ x hx

theorem getCommentsLoop_exhaust (score : String → Rat) (failAt : Nat → Bool)
    (pageSize limit : Nat) (start endTs : Option Int) (src : List RawComment)
    (hfail : ∀ k, failAt k = false) (hlim : 1 ≤ limit) (hps : 1 ≤ pageSize) :
    ∀ (fuel skip : Nat) (acc : List EnrichedComment) (skips tr : List Nat),
      src.length - skip < fuel →
      getCommentsLoop score failAt fuel pageSize limit start endTs src skip acc skips
        = .ok ([], tr) →
      acc = [] ∧ ∀ c ∈ src.drop skip, is_within_time_range c start endTs = false := by
  intro fuel
  induction fuel with
  | zero =>
    intro skip acc skips tr hfuel
    omega
  | succ fuel ih =>
    intro skip acc skips tr hfuel heq
    by_cases hlt : acc.length < limit
    · simp only [getCommentsLoop, if_pos hlt, hfail skip, Bool.false_eq_true,
        if_false] at heq
      split at heq
      · rename_i hpage
        cases heq
        refine ⟨rfl, ?_⟩
        have hdrop : src.drop skip = [] := by
          rcases List.take_eq_nil_iff.mp hpage with h | h
          · omega
          · exact h
        simp [hdrop]
      · rename_i hpage
        split at heq
        · exact absurd heq (by simp)
        · rename_i acc₁ hstep
          have hsk : skip < src.length := by
            by_contra hge
            have hnil : src.drop skip = [] := List.drop_eq_nil_of_le (by omega)
            exact hpage (by rw [hnil]; simp)
          rcases ih (skip + pageSize) acc₁ (skips ++ [skip]) tr (by omega) heq with
            ⟨hacc₁, hrest⟩
          subst hacc₁
          rcases processPage_ok_nil score start endTs limit hlim _ acc hstep with
            ⟨hacc, hpageAll⟩
          refine ⟨hacc, ?_⟩
          intro c hc
          rw [show src.drop skip =
              (src.drop skip).take pageSize ++ ((src.drop skip).drop pageSize) from
            (List.take_append_drop pageSize (src.drop skip)).symm] at hc
          rcases List.mem_append.mp hc with hc | hc
          · exact hpageAll c hc
          · refine hrest c ?_
            rw [List.drop_drop] at hc
            exact hc
    · simp only [getCommentsLoop, if_neg hlt] at heq
      cases heq
      exfalso
      simp at hlt
      omega

theorem enrich_nonblank_ok (score : String → Rat) (c : RawComment)
    (hblank : pyIsBlank c.text = false) :
    enrich_with_sentiment score c = .ok (mkEnriched score c) := by
  simp [enrich_with_sentiment, analyze_sentiment, hblank, mkEnriched]

theorem processPage_nonblank_ok (score : String → Rat) (start endTs : Option Int)
    (limit : Nat) (l : List RawComment)
    (hblank : ∀ c ∈ l, pyIsBlank c.text = false) :
    ∀ (acc : List EnrichedComment),
      ∃ acc', processPage score start endTs limit l acc = .ok acc' := by
  induction l with
  | nil => intro acc; exact ⟨acc, rfl⟩
  | cons c rest ih =>
    intro acc
    simp only [processPage]
    by_cases hr : is_within_time_range c start endTs
    · rw [if_pos hr, enrich_nonblank_ok score c (hblank c (by simp))]
      simp only
      split
      · exact ⟨_, rfl⟩
      · exact ih (fun x hx => hblank x (by simp [hx])) _
    · rw [if_neg hr]
      simp only
      split
      · exact ⟨acc, rfl⟩
      · exact ih (fun x hx => hblank x (by simp [hx])) acc

theorem getCommentsLoop_nonblank_ok (score : String → Rat) (failAt : Nat → Bool)
    (pageSize limit : Nat) (start endTs : Option Int) (src : List RawComment)
    (hblank : ∀ c ∈ src, pyIsBlank c.text = false) :
    ∀ (fuel skip : Nat) (acc : List EnrichedComment) (skips : List Nat),
      ∃ res tr, getCommentsLoop score failAt fuel pageSize limit start endTs src
        skip acc skips = .ok (res, tr) := by
  intro fuel
  induction fuel with
  | zero => intro skip acc skips; exact ⟨acc, skips, rfl⟩
  | succ fuel ih =>
    intro skip acc skips
    by_cases hlt : acc.length < limit
    · simp only [getCommentsLoop, if_pos hlt]
      split
      · exact ⟨acc, skips ++ [skip], rfl⟩
      · split
        · exact ⟨acc, skips ++ [skip], rfl⟩
        · rcases processPage_nonblank_ok score start endTs limit
              ((src.drop skip).take pageSize)
              (fun c hc => hblank c (List.drop_subset skip src (List.take_subset _ _ hc)))
              acc with ⟨acc₁, hacc₁⟩
          rw [hacc₁]
          exact ih (skip + pageSize) acc₁ (skips ++ [skip])
    · simp only [getCommentsLoop, if_neg hlt]
      exact ⟨acc, skips, rfl⟩

theorem processPage_all_inRange (score : String → Rat) (start endTs : Option Int)
    (limit : Nat) (l : List RawComment)
    (hin : ∀ c ∈ l, is_within_time_range c start endTs = true)
    (hblank : ∀ c ∈ l, pyIsBlank c.text = false) :
    ∀ (acc : List EnrichedComment), acc.length < limit →
      processPage score start endTs limit l acc =
        .ok (acc ++ (l.take (limit - acc.length)).map (mkEnriched score)) := by
  induction l with
  | nil =>
    intro acc _
    simp [processPage]
  | cons c rest ih =>
    intro acc hlt
    simp only [processPage, hin c (by simp), if_true,
      enrich_nonblank_ok score c (hblank c (by simp))]
    split
    · rename_i hbreak
      simp only [List.length_append, List.length_singleton] at hbreak
      have hl : limit = acc.length + 1 := by omega
      rw [show limit - acc.length = 1 from by omega]
      simp
    · rename_i hbreak
      simp only [List.length_append, List.length_singleton] at hbreak
      rw [ih (fun x hx => hin x (by simp [hx])) (fun x hx => hblank x (by simp [hx]))
        (acc ++ [mkEnriched score c]) (by simp; omega)]
      rw [show limit - acc.length = (limit - (acc ++ [mkEnriched score c]).length) + 1
        from by simp; omega]
      simp [List.take_succ_cons]

theorem getCommentsLoop_fuel_irrel (score : String → Rat) (failAt : Nat → Bool)
    (pageSize limit : Nat) (start endTs : Option Int) (src : List RawComment) :
    ∀ (fuel₁ fuel₂ skip : Nat) (acc : List EnrichedComment) (skips : List Nat),
      src.length - skip < fuel₁ → src.length - skip < fuel₂ →
      getCommentsLoop score failAt fuel₁ pageSize limit start endTs src skip acc skips
        = getCommentsLoop score failAt fuel₂ pageSize limit start endTs src skip acc
            skips := by
  intro fuel₁
  induction fuel₁ with
  | zero =>
    intro fuel₂ skip acc skips h1 h2
    omega
  | succ fuel ih =>
    intro fuel₂ skip acc skips h1 h2
    cases fuel₂ with
    | zero => omega
    | succ g =>
      by_cases hlt : acc.length < limit
      · simp only [getCommentsLoop, if_pos hlt]
        split
        · rfl
        · split
          · rfl
          · rename_i hfail hpage
            cases hstep : processPage score start endTs limit
                ((src.drop skip).take pageSize) acc with
            | error err => simp only [hstep]
            | ok acc₁ =>
              simp only [hstep]
              have hps : pageSize ≠ 0 := by
                intro h0
                exact hpage (by simp [h0])
              have hsk : skip < src.length := by
                by_contra hge
                have hnil : src.drop skip = [] := List.drop_eq_nil_of_le (by omega)
                exact hpage (by rw [hnil]; simp)
              exact ih g (skip + pageSize) acc₁ (skips ++ [skip]) (by omega) (by omega)
      · simp only [getCommentsLoop, if_neg hlt]

theorem getCommentsLoop_done (score : String → Rat) (failAt : Nat → Bool)
    (pageSize limit : Nat) (start endTs : Option Int) (src : List RawComment)
    (skip : Nat) (acc : List EnrichedComment) (skips : List Nat)
    (h : ¬acc.length < limit) :
    ∀ fuel, getCommentsLoop score failAt fuel pageSize limit start endTs src
      skip acc skips = .ok (acc, skips) := by
  intro fuel
  cases fuel with
  | zero => rfl
  | succ g => simp only [getCommentsLoop, if_neg h]

/-! ### Claim theorems -/

/-- C1: for every call to `get_comments` with `limit ≥ 1` that returns
normally, the returned list of enriched comments has length at most `limit`,
for every page size, source contents, failure pattern and time range. -/
theorem get_comments_length_le_limit (score : String → Rat) (env : FedditEnv)
    (pageSize : Nat) (subfeddit : String) (limit : Nat) (start endTs : Option Int)
    (res : List EnrichedComment) (hlim : 1 ≤ limit)
    (heq : get_comments score env pageSize subfeddit limit start endTs = .ok res) :
    res.length ≤ limit := by
  simp only [get_comments] at heq
  split at heq
  · exact absurd heq (by simp)
  · rename_i sid hsid
    split at heq
    · exact absurd heq (by simp)
    · rename_i collected tr hloop
      split at heq
      · exact absurd heq (by simp)
      · have hcoll := getCommentsLoop_length_le score env.failAt pageSize limit
          start endTs (env.commentsOf sid) ((env.commentsOf sid).length + 1) 0 [] []
          collected tr (by simp) hloop
        have hlen := secondPass_length score collected res heq
        omega

/-- Witness for C1 at a concrete input: limit 2, three available comments. -/
theorem get_comments_length_le_limit_witness :
    ([⟨1, "a", 0, "negative"⟩, ⟨2, "b", 0, "negative"⟩] :
      List EnrichedComment).length ≤ 2 :=
  get_comments_length_le_limit (fun _ => 0) envCats 2 "cats" 2 none none _
    (by decide) (by decide)

/-- C2 counterexample: a supplied `end` bound of 0 does NOT act as a real
bound at epoch zero; the code treats it as absent while the spec's predicate
rejects a comment created after the epoch. -/
theorem is_within_time_range_zero_bound_counterexample :
    is_within_time_range ⟨1, "x", 5⟩ none (some 0) = true ∧
    spec_is_within_range ⟨1, "x", 5⟩ none (some 0) = false := by
  decide

/-- C2 (amended): `is_within_time_range` is true iff every supplied NONZERO
lower bound is ≤ `created_at` and every supplied NONZERO upper bound is
≥ `created_at`, both inclusive; a supplied bound of value 0 is treated like
an absent one (Python falsiness). -/
theorem is_within_time_range_iff (comment : RawComment) (start endTs : Option Int) :
    is_within_time_range comment start endTs = true ↔
      ((∀ v, start = some v → v ≠ 0 → v ≤ comment.created_at) ∧
       (∀ v, endTs = some v → v ≠ 0 → comment.created_at ≤ v)) := by
  cases start <;> cases endTs <;>
    simp [is_within_time_range, pyTruthyInt] <;>
    omega

/-- Witness for C2 at a concrete input: both bounds supplied and nonzero. -/
theorem is_within_time_range_iff_witness :
    is_within_time_range ⟨1, "x", 5⟩ (some 3) (some 7) = true :=
  (is_within_time_range_iff ⟨1, "x", 5⟩ (some 3) (some 7)).mpr
    ⟨fun v hv _ => by cases hv; decide, fun v hv _ => by cases hv; decide⟩

/-- C5 (code bug): on empty or whitespace-only text `analyze_sentiment`
returns polarity 0 but stores the label under the key `sentiment` instead of
`classification`, so enriching such a comment raises
`KeyError('classification')` instead of producing classification
"negative". -/
theorem analyze_sentiment_blank_wrong_key (score : String → Rat) :
    analyze_sentiment score "" =
      { polarity := 0, classification := none, sentiment := some "negative" } ∧
    analyze_sentiment score "   " =
      { polarity := 0, classification := none, sentiment := some "negative" } ∧
    enrich_with_sentiment score ⟨7, "   ", 0⟩ = .error (.keyError "classification") :=
  ⟨rfl, rfl, rfl⟩

/-- C10: re-running sentiment analysis over an already-enriched comment with
non-blank text rewrites `polarity` and `classification` with the values they
already have, so the second pass of `get_comments` is behavior-preserving for
such comments. -/
theorem reanalyze_enriched_unchanged (score : String → Rat) (c : RawComment)
    (ec : EnrichedComment) (hblank : pyIsBlank c.text = false)
    (henr : enrich_with_sentiment score c = .ok ec) :
    reanalyze score ec = .ok ec :=
  enrich_ok_reanalyze score c ec henr

/-- Witness for C10 at a concrete input: a positive one-word comment. -/
theorem reanalyze_enriched_unchanged_witness :
    reanalyze (fun _ => (1 : Rat)) ⟨1, "good", 1, "positive"⟩ =
      .ok ⟨1, "good", 1, "positive"⟩ :=
  reanalyze_enriched_unchanged (fun _ => (1 : Rat)) ⟨1, "good", 0⟩
    ⟨1, "good", 1, "positive"⟩ (by decide) (by decide)

/-- C8: the optional polarity sort of the handler is a pure reordering of the
already-collected result: the multiset of comment ids is the same whether the
parameter is absent, `asc` or `desc`, so the sort never affects which
comments are selected. -/
theorem sortComments_pure_reordering :
    ∀ (data : List EnrichedComment) (p : Option SortOrder),
      ((sortComments p data).map (fun c => c.id)).Perm (data.map (fun c => c.id)) ∧
      ∀ (p₁ p₂ : Option SortOrder),
        (((sortComments p₁ data).map (fun c => c.id) : List Nat) : Multiset Nat) =
        (((sortComments p₂ data).map (fun c => c.id) : List Nat) : Multiset Nat) := by
  have hperm : ∀ (p : Option SortOrder) (data : List EnrichedComment),
      (sortComments p data).Perm data := by
    intro p data
    cases p with
    | none => exact List.Perm.refl data
    | some o => cases o <;> exact List.mergeSort_perm data _
  intro data p
  refine ⟨(hperm p data).map _, ?_⟩
  intro p₁ p₂
  exact Multiset.coe_eq_coe.mpr
    (((hperm p₁ data).map (fun c => c.id)).trans
      ((hperm p₂ data).map (fun c => c.id)).symm)

/-- C6: when some forum's title is exactly `T`, resolving `T`, `lower T` and
`upper T` all succeed and give the same forum id (the first case-insensitive
match in source order); a name with no case-insensitive match fails with
`ValueError` ("not found"). -/
theorem get_subfeddit_id_case_insensitive (env : FedditEnv) (T : String)
    (hok : env.subfedditsFail = false) :
    ((∃ f ∈ env.subfeddits, f.title = T) →
      ∃ i, get_subfeddit_id_by_name env T = .ok i ∧
        get_subfeddit_id_by_name env (pyLower T) = .ok i ∧
        get_subfeddit_id_by_name env (pyUpper T) = .ok i) ∧
    (∀ name : String, (∀ f ∈ env.subfeddits, pyLower f.title ≠ pyLower name) →
      get_subfeddit_id_by_name env name =
        .error (.valueError ("Subfeddit '" ++ name ++ "' not found"))) := by
  constructor
  · rintro ⟨f, hf, hft⟩
    have hpred : ∀ name : String, pyLower name = pyLower T →
        (fun sub : SubfedditInfo => pyLower sub.title == pyLower name) =
        (fun sub : SubfedditInfo => pyLower sub.title == pyLower T) := by
      intro name h
      funext sub
      rw [h]
    have hsome : (env.subfeddits.find?
        (fun sub => pyLower sub.title == pyLower T)).isSome := by
      rw [List.find?_isSome]
      exact ⟨f, hf, by rw [hft]; simp⟩
    cases hfind : env.subfeddits.find? (fun sub => pyLower sub.title == pyLower T) with
    | none =>
      rw [hfind] at hsome
      simp at hsome
    | some g =>
      refine ⟨g.id, ?_, ?_, ?_⟩ <;>
        simp only [get_subfeddit_id_by_name, hok, Bool.false_eq_true, if_false]
      · rw [hfind]
      · rw [hpred (pyLower T) (pyLower_idem T), hfind]
      · rw [hpred (pyUpper T) (pyLower_pyUpper T), hfind]
  · intro name hno
    simp only [get_subfeddit_id_by_name, hok, Bool.false_eq_true, if_false]
    rw [List.find?_eq_none.mpr]
    intro sub hsub
    simp [hno sub hsub]

/-- Witness for C6 at a concrete input: title "Cats", unmatched "dogs". -/
theorem get_subfeddit_id_case_insensitive_witness :
    (∃ i, get_subfeddit_id_by_name envDir "Cats" = .ok i ∧
      get_subfeddit_id_by_name envDir (pyLower "Cats") = .ok i ∧
      get_subfeddit_id_by_name envDir (pyUpper "Cats") = .ok i) ∧
    get_subfeddit_id_by_name envDir "dogs" =
      .error (.valueError ("Subfeddit '" ++ "dogs" ++ "' not found")) :=
  ⟨(get_subfeddit_id_case_insensitive envDir "Cats" rfl).1
      ⟨⟨55, "Cats"⟩, by decide, rfl⟩,
    (get_subfeddit_id_case_insensitive envDir "Cats" rfl).2 "dogs" (by decide)⟩

/-- C3: when the first page succeeds and yields a nonempty partial
collection below `limit`, and the request for the second page (at skip
`pageSize`) fails, `get_comments` stops paginating and returns exactly the
comments collected so far as a successful result — no error reaches the
caller. -/
theorem get_comments_partial_on_failure (score : String → Rat) (env : FedditEnv)
    (pageSize : Nat) (subfeddit : String) (limit : Nat) (start endTs : Option Int)
    (sid : Nat) (acc : List EnrichedComment)
    (hsid : get_subfeddit_id_by_name env subfeddit = .ok sid)
    (hfail0 : env.failAt 0 = false)
    (hfailP : env.failAt pageSize = true)
    (hpage : processPage score start endTs limit
      ((env.commentsOf sid).take pageSize) [] = .ok acc)
    (hne : acc ≠ [])
    (hlt : acc.length < limit) :
    get_comments score env pageSize subfeddit limit start endTs = .ok acc := by
  have hpagene : (env.commentsOf sid).take pageSize ≠ [] := by
    intro h0
    rw [h0] at hpage
    cases hpage
    exact hne rfl
  have hsrcne : env.commentsOf sid ≠ [] := by
    intro h0
    exact hpagene (by rw [h0]; simp)
  have h0lim : 0 < limit := by
    have : 0 < acc.length := List.length_pos.mpr hne
    omega
  have hgood : ∀ x ∈ acc, reanalyze score x = .ok x :=
    processPage_good score start endTs limit _ [] acc (by simp) hpage
  obtain ⟨m, hm⟩ : ∃ m, (env.commentsOf sid).length = m + 1 := by
    cases hsrc : env.commentsOf sid with
    | nil => exact absurd hsrc hsrcne
    | cons a l => exact ⟨l.length, by simp⟩
  have hloop : getCommentsLoop score env.failAt ((env.commentsOf sid).length + 1)
      pageSize limit start endTs (env.commentsOf sid) 0 [] [] =
      .ok (acc, [0, pageSize]) := by
    simp only [getCommentsLoop, List.length_nil, if_pos h0lim, hfail0,
      Bool.false_eq_true, if_false, List.drop_zero]
    rw [if_neg hpagene, hpage]
    simp only [hm, getCommentsLoop, if_pos hlt, Nat.zero_add, hfailP, if_true]
    rfl
  simp only [get_comments, hsid, hloop, if_neg hne]
  exact secondPass_good score acc hgood

/-- Witness for C3 at a concrete input: 3 comments collected from the first
page, limit 10, second page request fails, the 3 are returned. -/
theorem get_comments_partial_on_failure_witness :
    get_comments (fun _ => 0) envMid 3 "cats" 10 none none =
      .ok [⟨1, "a", 0, "negative"⟩, ⟨2, "b", 0, "negative"⟩,
        ⟨3, "c", 0, "negative"⟩] :=
  get_comments_partial_on_failure (fun _ => 0) envMid 3 "cats" 10 none none 1
    [⟨1, "a", 0, "negative"⟩, ⟨2, "b", 0, "negative"⟩, ⟨3, "c", 0, "negative"⟩]
    (by decide) (by decide) (by decide) (by decide) (by decide) (by decide)

/-- C9: when the request for the very first comment page fails, nothing is
collected and `get_comments` raises the same
`ValueError("No comments found matching the given criteria")` that a genuine
zero-match run (all pages fetched, no comment in range) raises, and the
handler turns it into the same 404; at the public interface an outage of the
comments endpoint is indistinguishable from a no-match outcome. -/
theorem get_comments_outage_equals_nomatch (score : String → Rat)
    (env env₂ : FedditEnv) (pageSize : Nat) (subfeddit : String) (limit : Nat)
    (start endTs : Option Int) (sid sid₂ : Nat) (sortParam : Option SortOrder)
    (hsid : get_subfeddit_id_by_name env subfeddit = .ok sid)
    (hfail : env.failAt 0 = true)
    (hsid₂ : get_subfeddit_id_by_name env₂ subfeddit = .ok sid₂)
    (hnone : ∀ c ∈ env₂.commentsOf sid₂,
      is_within_time_range c start endTs = false) :
    get_comments score env pageSize subfeddit limit start endTs =
      .error (.valueError noMatchMsg) ∧
    get_comments score env₂ pageSize subfeddit limit start endTs =
      .error (.valueError noMatchMsg) ∧
    comments score env pageSize subfeddit limit start endTs sortParam =
      .httpException 404 noMatchMsg := by
  have h1 : get_comments score env pageSize subfeddit limit start endTs =
      .error (.valueError noMatchMsg) := by
    simp only [get_comments, hsid]
    by_cases hlt : 0 < limit
    · simp only [getCommentsLoop, List.length_nil, if_pos hlt, hfail, if_true]
    · simp only [getCommentsLoop, List.length_nil, if_neg hlt]
      simp
  refine ⟨h1, ?_, ?_⟩
  · rcases getCommentsLoop_none_inRange score env₂.failAt pageSize limit start
      endTs (env₂.commentsOf sid₂) hnone ((env₂.commentsOf sid₂).length + 1) 0 []
      [] with ⟨tr, htr⟩
    simp only [get_comments, hsid₂, htr]
    simp
  · simp only [comments, h1]

/-- Witness for C9 at a concrete input: total outage versus a healthy run
whose range (start 100) matches nothing — identical error and 404. -/
theorem get_comments_outage_equals_nomatch_witness :
    get_comments (fun _ => 0) envOut 25 "cats" 10 (some 100) none =
      .error (.valueError noMatchMsg) ∧
    get_comments (fun _ => 0) envCats 25 "cats" 10 (some 100) none =
      .error (.valueError noMatchMsg) ∧
    comments (fun _ => 0) envOut 25 "cats" 10 (some 100) none none =
      .httpException 404 noMatchMsg :=
  get_comments_outage_equals_nomatch (fun _ => 0) envOut envCats 25 "cats" 10
    (some 100) none 1 1 none (by decide) (by decide) (by decide) (by decide)

/-- C4 counterexample: the claim fails twice on the code: a first-page
outage raises NoMatch although in-range comments exist unexamined, and a
blank-text comment that passes the filter makes the call raise `KeyError`
instead of returning normally. -/
theorem get_comments_nomatch_counterexample :
    (get_comments (fun _ => 0) envOut 25 "cats" 10 none none =
        .error (.valueError noMatchMsg) ∧
      is_within_time_range ⟨1, "a", 10⟩ none none = true ∧
      envOut.commentsOf 1 = [⟨1, "a", 10⟩, ⟨2, "b", 20⟩, ⟨3, "c", 30⟩]) ∧
    (get_comments (fun _ => 0) envBlank 25 "cats" 10 none none =
        .error (.keyError "classification") ∧
      is_within_time_range ⟨1, "  ", 10⟩ none none = true ∧
      envBlank.commentsOf 1 = [⟨1, "  ", 10⟩]) := by
  decide

/-- C4 (amended): assume the forum resolves, every page request succeeds,
`limit ≥ 1` and the page size is positive.  Then `get_comments` fails with
`ValueError("No comments found matching the given criteria")` exactly when
no source comment satisfies the range; and when at least one comment
satisfies the range and every comment text is non-blank, it returns
normally. -/
theorem get_comments_nomatch_iff (score : String → Rat) (env : FedditEnv)
    (pageSize : Nat) (subfeddit : String) (limit : Nat) (start endTs : Option Int)
    (sid : Nat)
    (hsid : get_subfeddit_id_by_name env subfeddit = .ok sid)
    (hfail : ∀ k, env.failAt k = false)
    (hlim : 1 ≤ limit) (hps : 1 ≤ pageSize) :
    (get_comments score env pageSize subfeddit limit start endTs =
        .error (.valueError noMatchMsg) ↔
      ∀ c ∈ env.commentsOf sid, is_within_time_range c start endTs = false) ∧
    ((∃ c ∈ env.commentsOf sid, is_within_time_range c start endTs = true) →
      (∀ c ∈ env.commentsOf sid, pyIsBlank c.text = false) →
      ∃ res, get_comments score env pageSize subfeddit limit start endTs =
        .ok res) := by
  constructor
  · constructor
    · intro herr
      simp only [get_comments, hsid] at herr
      cases hloop : getCommentsLoop score env.failAt
          ((env.commentsOf sid).length + 1) pageSize limit start endTs
          (env.commentsOf sid) 0 [] [] with
      | error err =>
        have hshape := getCommentsLoop_error_shape score env.failAt pageSize limit
          start endTs (env.commentsOf sid) _ 0 [] [] err hloop
        rw [hloop, hshape] at herr
        exact absurd herr (by simp)
      | ok pr =>
        obtain ⟨collected, tr⟩ := pr
        rw [hloop] at herr
        dsimp only at herr
        by_cases hc : collected = []
        · subst hc
          have h := (getCommentsLoop_exhaust score env.failAt pageSize limit
            start endTs (env.commentsOf sid) hfail hlim hps _ 0 [] [] tr
            (by omega) hloop).2
          rwa [List.drop_zero] at h
        · have hgood := getCommentsLoop_good score env.failAt pageSize limit
            start endTs (env.commentsOf sid) _ 0 [] [] collected tr (by simp)
            hloop
          rw [if_neg hc, secondPass_good score collected hgood] at herr
          exact absurd herr (by simp)
    · intro hnone
      rcases getCommentsLoop_none_inRange score env.failAt pageSize limit start
        endTs (env.commentsOf sid) hnone ((env.commentsOf sid).length + 1) 0 []
        [] with ⟨tr, htr⟩
      simp only [get_comments, hsid, htr]
      simp
  · rintro ⟨c, hc, hcr⟩ hblank
    rcases getCommentsLoop_nonblank_ok score env.failAt pageSize limit start
      endTs (env.commentsOf sid) hblank ((env.commentsOf sid).length + 1) 0 []
      [] with ⟨res, tr, hloop⟩
    by_cases hres : res = []
    · exfalso
      subst hres
      have h := (getCommentsLoop_exhaust score env.failAt pageSize limit start
        endTs (env.commentsOf sid) hfail hlim hps _ 0 [] [] tr (by omega)
        hloop).2
      rw [List.drop_zero] at h
      rw [h c hc] at hcr
      exact absurd hcr (by simp)
    · refine ⟨res, ?_⟩
      have hgood := getCommentsLoop_good score env.failAt pageSize limit start
        endTs (env.commentsOf sid) _ 0 [] [] res tr (by simp) hloop
      simp only [get_comments, hsid, hloop, if_neg hres]
      exact secondPass_good score res hgood

/-- Witness for C4 at a concrete input: three in-range non-blank comments. -/
theorem get_comments_nomatch_iff_witness :
    (get_comments (fun _ => 0) envCats 25 "cats" 10 none none =
        .error (.valueError noMatchMsg) ↔
      ∀ c ∈ envCats.commentsOf 1, is_within_time_range c none none = false) ∧
    ((∃ c ∈ envCats.commentsOf 1, is_within_time_range c none none = true) →
      (∀ c ∈ envCats.commentsOf 1, pyIsBlank c.text = false) →
      ∃ res, get_comments (fun _ => 0) envCats 25 "cats" 10 none none =
        .ok res) :=
  get_comments_nomatch_iff (fun _ => 0) envCats 25 "cats" 10 none none 1
    (by decide) (fun _ => rfl) (by decide) (by decide)

/-- C7 (amended): with page size 25, limit 30 and a source of 40 comments all
within range and all with non-blank text, the loop requests exactly the pages
at skip 0 and skip 25 (no third page) and `get_comments` returns exactly the
first 30 comments, enriched. -/
theorem get_comments_pagesize25_limit30 (score : String → Rat) (env : FedditEnv)
    (subfeddit : String) (start endTs : Option Int) (sid : Nat)
    (hsid : get_subfeddit_id_by_name env subfeddit = .ok sid)
    (hfail : ∀ k, env.failAt k = false)
    (hlen : (env.commentsOf sid).length = 40)
    (hin : ∀ c ∈ env.commentsOf sid, is_within_time_range c start endTs = true)
    (hblank : ∀ c ∈ env.commentsOf sid, pyIsBlank c.text = false) :
    getCommentsLoop score env.failAt ((env.commentsOf sid).length + 1) 25 30
      start endTs (env.commentsOf sid) 0 [] [] =
      .ok (((env.commentsOf sid).take 30).map (mkEnriched score), [0, 25]) ∧
    get_comments score env 25 subfeddit 30 start endTs =
      .ok (((env.commentsOf sid).take 30).map (mkEnriched score)) := by
  have hp1 : processPage score start endTs 30 ((env.commentsOf sid).take 25) [] =
      .ok (((env.commentsOf sid).take 25).map (mkEnriched score)) := by
    have h := processPage_all_inRange score start endTs 30
      ((env.commentsOf sid).take 25)
      (fun c hc => hin c (List.take_subset _ _ hc))
      (fun c hc => hblank c (List.take_subset _ _ hc)) [] (by norm_num)
    simpa [List.take_take] using h
  have hacc1len : (((env.commentsOf sid).take 25).map (mkEnriched score)).length
      = 25 := by
    simp [List.length_take, hlen]
  have hp2 : processPage score start endTs 30
      (((env.commentsOf sid).drop 25).take 25)
      (((env.commentsOf sid).take 25).map (mkEnriched score)) =
      .ok (((env.commentsOf sid).take 30).map (mkEnriched score)) := by
    have h := processPage_all_inRange score start endTs 30
      (((env.commentsOf sid).drop 25).take 25)
      (fun c hc => hin c (List.drop_subset _ _ (List.take_subset _ _ hc)))
      (fun c hc => hblank c (List.drop_subset _ _ (List.take_subset _ _ hc)))
      (((env.commentsOf sid).take 25).map (mkEnriched score))
      (by rw [hacc1len]; norm_num)
    rw [h, hacc1len]
    rw [show (30 : Nat) - 25 = 5 from rfl, List.take_take,
      show min 5 25 = 5 from rfl,
      show (env.commentsOf sid).take 30 =
        (env.commentsOf sid).take 25 ++ ((env.commentsOf sid).drop 25).take 5 from
        List.take_add (env.commentsOf sid) 25 5,
      List.map_append]
  have hloop : getCommentsLoop score env.failAt ((env.commentsOf sid).length + 1)
      25 30 start endTs (env.commentsOf sid) 0 [] [] =
      .ok (((env.commentsOf sid).take 30).map (mkEnriched score), [0, 25]) := by
    obtain ⟨n, hn⟩ : ∃ n, (env.commentsOf sid).length = n + 1 :=
      ⟨39, by omega⟩
    have hpage0 : (env.commentsOf sid).take 25 ≠ [] := by
      intro h0
      have := congrArg List.length h0
      simp [List.length_take, hlen] at this
    have hpage1 : ((env.commentsOf sid).drop 25).take 25 ≠ [] := by
      intro h0
      have := congrArg List.length h0
      simp [List.length_take, hlen] at this
    simp only [getCommentsLoop, List.length_nil, if_pos (by norm_num : (0:Nat) < 30),
      hfail 0, Bool.false_eq_true, if_false, List.drop_zero]
    rw [if_neg hpage0, hp1]
    simp only [hn, getCommentsLoop, Nat.zero_add, hacc1len,
      if_pos (by norm_num : (25:Nat) < 30), hfail 25, Bool.false_eq_true, if_false]
    rw [if_neg hpage1, hp2]
    dsimp only
    rw [getCommentsLoop_done score env.failAt 25 30 start endTs
      (env.commentsOf sid) (25 + 25)
      (((env.commentsOf sid).take 30).map (mkEnriched score)) ([] ++ [0] ++ [25])
      (by simp [List.length_take, hlen]) n]
    rfl
  refine ⟨hloop, ?_⟩
  have hne : ((env.commentsOf sid).take 30).map (mkEnriched score) ≠ [] := by
    intro h0
    have := congrArg List.length h0
    simp [List.length_take, hlen] at this
  have hgood : ∀ x ∈ ((env.commentsOf sid).take 30).map (mkEnriched score),
      reanalyze score x = .ok x := by
    intro x hx
    rcases List.mem_map.mp hx with ⟨c, hc, rfl⟩
    exact enrich_ok_reanalyze score c _
      (enrich_nonblank_ok score c (hblank c (List.take_subset _ _ hc)))
  simp only [get_comments, hsid, hloop, if_neg hne]
  exact secondPass_good score _ hgood

/-- C7 counterexample: with page size 25, limit 30, a source of 40 comments
all within range, the call need not return 30 comments — a blank-text
comment makes it raise `KeyError` instead. -/
theorem get_comments_pagesize25_counterexample :
    (envForty.commentsOf 1).length = 40 ∧
    (∀ c ∈ envForty.commentsOf 1, is_within_time_range c none none = true) ∧
    get_comments (fun _ => 0) envForty 25 "cats" 30 none none =
      .error (.keyError "classification") := by
  decide

/-- Witness for C7 at a concrete input: 40 healthy comments, pages at skips
0 and 25 only, 30 comments returned. -/
theorem get_comments_pagesize25_limit30_witness :
    getCommentsLoop (fun _ => 0) envForty2.failAt
      ((envForty2.commentsOf 1).length + 1) 25 30 none none
      (envForty2.commentsOf 1) 0 [] [] =
      .ok (((envForty2.commentsOf 1).take 30).map (mkEnriched (fun _ => 0)),
        [0, 25]) ∧
    get_comments (fun _ => 0) envForty2 25 "cats" 30 none none =
      .ok (((envForty2.commentsOf 1).take 30).map (mkEnriched (fun _ => 0))) :=
  get_comments_pagesize25_limit30 (fun _ => 0) envForty2 "cats" none none 1
    (by decide) (fun _ => rfl) (by decide) (by decide) (by decide)
